import Mathlib

/-!
Verification of the PwdHash Vault web server (`pwdhash/web.py`).

The file shallowly embeds the request handlers of `PwdHashServer`
(`index`, `generate`, `pick_image`, `update`) as pure Lean functions.
The persistent store (`pwdhash/db.py`, not part of the sources) is
modelled from the spec as a list of `Key` records; the external
collaborators (password generator, clipboard, image search, image
reachability) are passed in as function parameters, and their effects
(clipboard writes, upstream requests) are returned explicitly.
-/

/-- The sole persisted entity (spec §3): a key record with a `name`
acting as primary key, a `domain` and an `image`.  The web handler
`update` stores the raw form parameters, which CherryPy passes as
`None` when absent, so `domain` and `image` are optional strings. -/
structure Key where
  name : String
  domain : Option String
  image : Option String
deriving Repr, DecidableEq

/-- Python truthiness of an optional string parameter, as used by
`if delete:` and `elif name:` in `PwdHashServer.update`: `None` and
the empty string are falsy, every other string is truthy. -/
def truthy : Option String → Bool
  | none => false
  | some s => s != ""

/-- Modelled from the spec (§4.1 `findByName`, `Key.byName` in the
missing `pwdhash/db.py`): look up the record with the given unique
`name`, returning `none` for the `SQLObjectNotFound` case. -/
def Key.byName (store : List Key) (n : String) : Option Key :=
  store.find? (fun k => k.name == n)

/-- Modelled from the spec (§4.1 `deleteByName`; `Key.byName` followed
by `Key.delete (k.id)` in the source, with `SQLObjectNotFound`
silently ignored): remove the record found by name, if any.
`List.eraseP` removes the first record whose name matches — the one
`byName` returns — and leaves the store unchanged when none does. -/
def deleteByName (store : List Key) (n : String) : List Key :=
  store.eraseP (fun k => k.name == n)

/-- Modelled from the spec (§4.1 `upsert`): if a record with `name`
exists, overwrite its `domain` and `image` fields; otherwise insert a
new record with those fields. -/
def upsert (store : List Key) (n : String) (d i : Option String) : List Key :=
  match Key.byName store n with
  | some _ =>
      store.map (fun k => if k.name == n then { k with domain := d, image := i } else k)
  | none => store ++ [{ name := n, domain := d, image := i }]

/-- The ORM row update `k.domain = domain; k.image = image` performed
on the record returned by `Key.byName`: overwrite the fields of the
first record with the given name, leaving the rest untouched. -/
def setFields (n : String) (d i : Option String) : List Key → List Key
  | [] => []
  | k :: ks =>
      if k.name == n then { k with domain := d, image := i } :: ks
      else k :: setFields n d i ks

/-- Result of the `update` handler: the store after the mutation and
the target of the `cherrypy.HTTPRedirect` raised at the end. -/
structure UpdateResult where
  store : List Key
  redirect : String
deriving Repr, DecidableEq

/-- `PwdHashServer.update (name=None, domain=None, image=None,
delete=None)` from `pwdhash/web.py`: if `delete` is truthy, look the
record up by that name and delete it, ignoring `SQLObjectNotFound`;
else if `name` is truthy, look it up by `name`, create the record on
`SQLObjectNotFound`, and in either case write `domain` and `image`
into it; always redirect to `"/"`. -/
def update (store : List Key) (name domain image delete : Option String) : UpdateResult :=
  if truthy delete then
    { store := store.eraseP (fun k => k.name == delete.getD ""), redirect := "/" }
  else if truthy name then
    let n := name.getD ""
    match Key.byName store n with
    | some _ => { store := setFields n domain image store, redirect := "/" }
    | none =>
        { store := store ++ [{ name := n, domain := domain, image := image }],
          redirect := "/" }
  else
    { store := store, redirect := "/" }

/-- `Key.select ().orderBy ('name')`: the stored records ordered by
name ascending (SQLObject `orderBy` on the string column `name`). -/
def selectOrderByName (store : List Key) : List Key :=
  store.mergeSort (fun a b => a.name ≤ b.name)

/-- Rendered output of the `index` handler: the store it leaves
behind, the strings written to the clipboard collaborator while
handling the request, and the data handed to the `index.html`
template (`keys` and `msg`). -/
structure IndexResult where
  store : List Key
  clipboard_writes : List String
  keys : List Key
  msg : Option String
deriving Repr

/-- `PwdHashServer.index (msg=None)` from `pwdhash/web.py`: if `msg`
is `None`, overwrite the clipboard with the placeholder `"***"`; fetch
all keys ordered by name; render the template with `keys` and `msg`.
The store is only read, never written. -/
def index (store : List Key) (msg : Option String) : IndexResult :=
  { store := store
    clipboard_writes := if msg = none then ["***"] else []
    keys := selectOrderByName store
    msg := msg }

/-- `PwdHashServer.generate (**kwargs)` from `pwdhash/web.py`:
generate a password for `domain` with the generator collaborator,
try to copy it to the clipboard; the message is `"Password ready"` on
success and the raw generated string on failure; return
`self.index (msg)`.  `pwd_gen` is the password-generator collaborator
and `copy_ok` reports whether `copy_to_clipboard` succeeded. -/
def generate (pwd_gen : String → String) (copy_ok : String → Bool)
    (store : List Key) (domain : String) : IndexResult :=
  let generated := pwd_gen domain
  let copied_to_clipboard := copy_ok generated
  let msg := if copied_to_clipboard then "Password ready" else generated
  index store (some msg)

/-- Google will only return a max of 56 results (`MAX_RESULTS`). -/
def MAX_RESULTS : Int := 56

/-- The `while start < next_start` loop of `PwdHashServer.pick_image`:
issue an upstream search request at offset `start`, keep each returned
image URL that is reachable (the `requests.get (url)` probe; a
`ConnectionError` skips the URL), advance `start` by 4, and repeat.
Returns the accumulated reachable URLs, the offsets requested
upstream, and the final value of `start`. -/
def searchLoop (search : Int → List String) (reachable : String → Bool)
    (start next_start : Int) : List String × List Int × Int :=
  if start < next_start then
    let batch := (search start).filter (fun u => reachable u)
    let rest := searchLoop search reachable (start + 4) next_start
    (batch ++ rest.1, start :: rest.2.1, rest.2.2)
  else ([], [], start)
termination_by (next_start - start).toNat
decreasing_by omega

/-- Rendered output of the `pick_image` handler: the gallery URLs and
pagination offsets handed to the `pick_image.html` template, plus the
offsets of the upstream requests issued and the final value of the
running offset. -/
structure PickImagePage where
  query : String
  img_urls : List String
  next_start : Option Int
  prev_start : Option Int
  requests : List Int
  final_start : Int
deriving Repr

/-- `PwdHashServer.pick_image (query, start=0)` from `pwdhash/web.py`:
`next_start = start + 8` clamped to `MAX_RESULTS`; `prev_start =
start - 8`, or `None` when negative; fetch batches of 4 results per
upstream request while `start < next_start`, skipping unreachable
image URLs; finally disable the next-page link (`next_start = None`)
when `next_start == MAX_RESULTS`.  `search` is the image-search
collaborator (offset to list of image URLs) and `reachable` the
outcome of the per-URL `requests.get` probe. -/
def pick_image (search : Int → List String) (reachable : String → Bool)
    (query : String) (start : Int) : PickImagePage :=
  let next_start0 := start + 8
  let prev_start0 := start - 8
  let next_start1 := if next_start0 > MAX_RESULTS then MAX_RESULTS else next_start0
  let prev_start : Option Int := if prev_start0 < 0 then none else some prev_start0
  let r := searchLoop search reachable start next_start1
  let next_start : Option Int :=
    if next_start1 = MAX_RESULTS then none else some next_start1
  { query := query
    img_urls := r.1
    next_start := next_start
    prev_start := prev_start
    requests := r.2.1
    final_start := r.2.2 }

/-- A concrete image-search collaborator used to exercise the
handlers on closed inputs. -/
def sampleSearch : Int → List String :=
  fun s => if s = 0 then ["good", "bad"] else ["extra"]

/-- A concrete reachability outcome: every URL except `"bad"` is
reachable. -/
def sampleReachable : String → Bool :=
  fun u => u != "bad"

/-- A concrete password-generator collaborator. -/
def samplePwdGen : String → String := fun _ => "s3cret"

/-- A clipboard collaborator whose copy always succeeds. -/
def sampleCopyOk : String → Bool := fun _ => true

/-- A clipboard collaborator whose copy always fails. -/
def sampleCopyFail : String → Bool := fun _ => false

example : truthy (some "x") = true := by decide
example : truthy (some "") = false := by decide
example : truthy none = false := by decide
example :
    (update [] (some "bank") (some "b.com") (some "i1") none).store
      = [{ name := "bank", domain := some "b.com", image := some "i1" }] := by decide
example :
    (update [{ name := "bank", domain := some "b.com", image := some "i1" }]
        (some "bank") (some "b2.com") (some "i2") none).store
      = [{ name := "bank", domain := some "b2.com", image := some "i2" }] := by decide
example :
    (update [{ name := "bank", domain := some "b.com", image := some "i1" }]
        none none none (some "bank")).store = [] := by decide

/-! ### Helper lemmas about the store operations -/

theorem truthy_some_eq_true {s : String} (h : s ≠ "") : truthy (some s) = true := by
  simp [truthy, h]

theorem setFields_map_name (n : String) (d i : Option String) (l : List Key) :
    (setFields n d i l).map Key.name = l.map Key.name := by
  induction l with
  | nil => rfl
  | cons k ks ih =>
      cases hb : (k.name == n) with
      | true => simp [setFields, hb]
      | false => simp [setFields, hb, ih]

theorem byName_eq_none_iff (store : List Key) (n : String) :
    Key.byName store n = none ↔ ∀ k ∈ store, k.name ≠ n := by
  simp [Key.byName, List.find?_eq_none]

theorem byName_isSome_of_mem (store : List Key) (n : String)
    (h : n ∈ store.map Key.name) : (Key.byName store n).isSome := by
  rcases List.mem_map.1 h with ⟨k, hk, rfl⟩
  cases hb : Key.byName store k.name with
  | some _ => simp
  | none => exact absurd rfl ((byName_eq_none_iff store k.name).1 hb k hk)

theorem setFields_fields (n : String) (d i : Option String) (l : List Key)
    (hd : (l.map Key.name).Nodup) :
    ∀ k ∈ setFields n d i l, k.name = n → k.domain = d ∧ k.image = i := by
  induction l with
  | nil => simp [setFields]
  | cons k ks ih =>
      simp only [List.map_cons, List.nodup_cons] at hd
      intro km hm hname
      by_cases hb : k.name = n
      · rw [setFields, if_pos (by simpa using hb)] at hm
        rcases List.mem_cons.1 hm with rfl | hmem
        · exact ⟨rfl, rfl⟩
        · exact absurd (hb ▸ hname ▸ List.mem_map_of_mem Key.name hmem) hd.1
      · rw [setFields, if_neg (by simpa using hb)] at hm
        rcases List.mem_cons.1 hm with rfl | hmem
        · exact absurd hname hb
        · exact ih hd.2 km hmem hname

theorem countP_name_eq_count (l : List Key) (n : String) :
    l.countP (fun k => k.name == n) = (l.map Key.name).count n := by
  rw [List.count, List.countP_map]
  rfl

theorem update_upsert_store (store : List Key) (n : String) (d i : Option String)
    (hn : n ≠ "") :
    (update store (some n) d i none).store
      = (match Key.byName store n with
         | some _ => setFields n d i store
         | none => store ++ [{ name := n, domain := d, image := i }]) := by
  rw [update, if_neg (by simp [truthy]), if_pos (by simpa using truthy_some_eq_true hn)]
  simp only [Option.getD_some]
  cases Key.byName store n <;> rfl

theorem upsert_names (store : List Key) (n : String) (d i : Option String)
    (hn : n ≠ "") (hd : (store.map Key.name).Nodup) :
    ((update store (some n) d i none).store.map Key.name).Nodup
    ∧ n ∈ (update store (some n) d i none).store.map Key.name := by
  rw [update_upsert_store store n d i hn]
  cases hb : Key.byName store n with
  | some k =>
      have hb' : store.find? (fun j => j.name == n) = some k := by
        simpa [Key.byName] using hb
      have hk : k ∈ store := List.mem_of_find?_eq_some hb'
      have hkn : k.name = n := by simpa using List.find?_some hb'
      refine ⟨by rw [setFields_map_name]; exact hd, ?_⟩
      rw [setFields_map_name]
      exact hkn ▸ List.mem_map_of_mem Key.name hk
  | none =>
      have hnot : ∀ k ∈ store, k.name ≠ n := (byName_eq_none_iff store n).1 hb
      constructor
      · rw [List.map_append, List.nodup_append]
        refine ⟨hd, by simp, ?_⟩
        intro a ha hb2
        simp only [List.map_cons, List.map_nil, List.mem_cons, List.not_mem_nil,
          or_false] at hb2
        rcases List.mem_map.1 ha with ⟨k, hk, rfl⟩
        exact hnot k hk hb2
      · simp

/-! ### Claim theorems -/

/-- C1: submitting `update` twice with the same (valid, truthy) name
and differing domain/image values leaves exactly one record for that
name, carrying the domain and image of the latest submission. -/
theorem update_same_name_twice (store : List Key) (n : String) (d1 i1 d2 i2 : Option String)
    (hn : n ≠ "") (hd : (store.map Key.name).Nodup) :
    ((update (update store (some n) d1 i1 none).store (some n) d2 i2 none).store.countP
        (fun k => k.name == n) = 1)
    ∧ ∀ k ∈ (update (update store (some n) d1 i1 none).store (some n) d2 i2 none).store,
        k.name = n → k.domain = d2 ∧ k.image = i2 := by
  obtain ⟨hd1, hm1⟩ := upsert_names store n d1 i1 hn hd
  have hsome := byName_isSome_of_mem (update store (some n) d1 i1 none).store n hm1
  have hstep : (update (update store (some n) d1 i1 none).store (some n) d2 i2 none).store
      = setFields n d2 i2 (update store (some n) d1 i1 none).store := by
    rw [update_upsert_store (update store (some n) d1 i1 none).store n d2 i2 hn]
    cases hb : Key.byName (update store (some n) d1 i1 none).store n with
    | some _ => rfl
    | none => rw [hb] at hsome; simp at hsome
  rw [hstep]
  constructor
  · rw [countP_name_eq_count, setFields_map_name]
    exact List.count_eq_one_of_mem hd1 hm1
  · exact setFields_fields n d2 i2 (update store (some n) d1 i1 none).store hd1

/-- Witness for C1: the spec scenario, starting from the empty store
with name `"bank"`. -/
theorem update_same_name_twice_w :
    ((update (update [] (some "bank") (some "bank.com") (some "icon1") none).store
        (some "bank") (some "bank2.com") (some "icon2") none).store.countP
      (fun k => k.name == "bank")) = 1 :=
  (update_same_name_twice [] "bank" (some "bank.com") (some "icon1")
    (some "bank2.com") (some "icon2") (by decide) (by decide)).1

/-- C5: deleting a name not present in the store leaves the store
unchanged (and still redirects to the listing). -/
theorem update_delete_absent_name (store : List Key) (s : String)
    (h : ∀ k ∈ store, k.name ≠ s) :
    update store none none none (some s) = { store := store, redirect := "/" } := by
  by_cases hs : s = ""
  · subst hs
    rw [update, if_neg (by simp [truthy]), if_neg (by simp [truthy])]
  · rw [update, if_pos (by simpa using truthy_some_eq_true hs)]
    simp only [Option.getD_some]
    rw [List.eraseP_of_forall_not]
    intro k hk
    simp [h k hk]

/-- Witness for C5: the spec scenario, deleting `"ghost"` from the
empty store. -/
theorem update_delete_absent_name_w :
    update [] none none none (some "ghost") = { store := [], redirect := "/" } :=
  update_delete_absent_name [] "ghost" (by simp)

/-- C9: calling `update` with an existing record's name but with the
`domain`/`image` parameters absent (`None`) overwrites the stored
fields with `none`, erasing the previous values. -/
theorem update_absent_params_null (store : List Key) (n : String) (k0 : Key)
    (hn : n ≠ "") (hd : (store.map Key.name).Nodup)
    (hk : Key.byName store n = some k0) :
    ∀ k ∈ (update store (some n) none none none).store, k.name = n →
      k.domain = none ∧ k.image = none := by
  rw [update_upsert_store store n none none hn, hk]
  exact setFields_fields n none none store hd

/-- Witness for C9: the record `"bank"` with stored domain and icon
has both fields erased by an `update` that omits them. -/
theorem update_absent_params_null_w :
    (Key.mk "bank" none none).domain = none ∧ (Key.mk "bank" none none).image = none :=
  update_absent_params_null [Key.mk "bank" (some "bank.com") (some "icon1")] "bank"
    (Key.mk "bank" (some "bank.com") (some "icon1")) (by decide) (by decide) (by decide)
    (Key.mk "bank" none none) (by decide) (by decide)

theorem setFields_eq_map (n : String) (d i : Option String) (l : List Key)
    (hd : (l.map Key.name).Nodup) :
    setFields n d i l
      = l.map (fun k => if k.name == n then { k with domain := d, image := i } else k) := by
  induction l with
  | nil => rfl
  | cons k ks ih =>
      simp only [List.map_cons, List.nodup_cons] at hd
      by_cases hb : k.name = n
      · rw [setFields, if_pos (by simpa using hb), List.map_cons, if_pos (by simpa using hb)]
        have hfix : ∀ km ∈ ks,
            (if km.name == n then { km with domain := d, image := i } else km) = id km := by
          intro km hm
          rw [if_neg, id]
          simp only [beq_iff_eq]
          intro he
          exact hd.1 (hb ▸ he ▸ List.mem_map_of_mem Key.name hm)
        rw [List.map_congr_left hfix, List.map_id]
      · rw [setFields, if_neg (by simpa using hb), List.map_cons, if_neg (by simpa using hb),
          ih hd.2]

/-- C6: the `update` handler takes the delete branch when `delete` is
truthy, the upsert branch when `delete` is falsy and `name` truthy,
and mutates nothing otherwise; in all cases it redirects to the
listing endpoint `"/"`. -/
theorem update_branch_structure (store : List Key) (name domain image delete : Option String)
    (hd : (store.map Key.name).Nodup) :
    (update store name domain image delete).redirect = "/"
    ∧ (truthy delete = true →
        (update store name domain image delete).store = deleteByName store (delete.getD ""))
    ∧ (truthy delete = false → truthy name = true →
        (update store name domain image delete).store = upsert store (name.getD "") domain image)
    ∧ (truthy delete = false → truthy name = false →
        (update store name domain image delete).store = store) := by
  refine ⟨?_, ?_, ?_, ?_⟩
  · rw [update]
    split
    · rfl
    · split
      · cases hb : Key.byName store (name.getD "") <;> simp [hb]
      · rfl
  · intro hdel
    rw [update, if_pos (by simp [hdel])]
    rfl
  · intro hdel hname
    rw [update, if_neg (by simp [hdel]), if_pos (by simp [hname])]
    simp only [upsert]
    cases hb : Key.byName store (name.getD "") with
    | some k =>
        simp only [hb]
        exact setFields_eq_map (name.getD "") domain image store hd
    | none => simp only [hb]
  · intro hdel hname
    rw [update, if_neg (by simp [hdel]), if_neg (by simp [hname])]

/-- Witness for C6: deleting `"a"` from a one-record store takes the
delete branch and redirects to `"/"`. -/
theorem update_branch_structure_w :
    (update [Key.mk "a" none none] none none none (some "a")).redirect = "/"
    ∧ (update [Key.mk "a" none none] none none none (some "a")).store
        = deleteByName [Key.mk "a" none none] "a" :=
  have h := update_branch_structure [Key.mk "a" none none] none none none (some "a")
    (by decide)
  ⟨h.1, h.2.1 rfl⟩

/-- C2: the message of the `generate` response is `"Password ready"`
when the clipboard copy succeeds and the raw generated password when
it fails. -/
theorem generate_msg_clipboard (pwd_gen : String → String) (copy_ok : String → Bool)
    (store : List Key) (domain : String) :
    (copy_ok (pwd_gen domain) = true →
       (generate pwd_gen copy_ok store domain).msg = some "Password ready")
    ∧ (copy_ok (pwd_gen domain) = false →
       (generate pwd_gen copy_ok store domain).msg = some (pwd_gen domain)) := by
  constructor <;> intro h <;> simp [generate, index, h]

/-- Witness for C2: a failing clipboard shows the raw password, a
succeeding one shows `"Password ready"`. -/
theorem generate_msg_clipboard_w :
    (generate samplePwdGen sampleCopyFail [] "example.com").msg = some "s3cret"
    ∧ (generate samplePwdGen sampleCopyOk [] "example.com").msg = some "Password ready" :=
  ⟨(generate_msg_clipboard samplePwdGen sampleCopyFail [] "example.com").2 rfl,
   (generate_msg_clipboard samplePwdGen sampleCopyOk [] "example.com").1 rfl⟩

/-- C3: the listing page always presents the records sorted by name
in ascending order, and presents exactly the stored records. -/
theorem index_keys_sorted (store : List Key) (msg : Option String) :
    List.Sorted (fun a b : Key => a.name ≤ b.name) (index store msg).keys
    ∧ (index store msg).keys.Perm store := by
  constructor
  · have htrans : ∀ a b c : Key, (a.name ≤ b.name : Bool) = true →
        (b.name ≤ c.name : Bool) = true → (a.name ≤ c.name : Bool) = true := by
      intro a b c hab hbc
      simp only [decide_eq_true_eq] at hab hbc ⊢
      exact le_trans hab hbc
    have htotal : ∀ a b : Key, ((a.name ≤ b.name : Bool) || (b.name ≤ a.name : Bool)) = true := by
      intro a b
      rcases le_total a.name b.name with h | h <;> simp [h]
    have h := List.sorted_mergeSort htrans htotal store
    exact h.imp (fun hab => by simpa using hab)
  · exact List.mergeSort_perm store (fun a b => a.name ≤ b.name)

/-- C7: the listing page overwrites the clipboard with the
placeholder `"***"` exactly when no message is supplied, and never
changes the store. -/
theorem index_clipboard_frame (store : List Key) (msg : Option String) :
    ((index store msg).clipboard_writes = ["***"] ↔ msg = none)
    ∧ ((index store msg).clipboard_writes = [] ↔ msg ≠ none)
    ∧ (index store msg).store = store := by
  cases msg <;> simp [index]

theorem searchLoop_unfold (search : Int → List String) (reachable : String → Bool)
    (start next_start : Int) :
    searchLoop search reachable start next_start
      = if start < next_start then
          ((search start).filter (fun u => reachable u)
             ++ (searchLoop search reachable (start + 4) next_start).1,
           start :: (searchLoop search reachable (start + 4) next_start).2.1,
           (searchLoop search reachable (start + 4) next_start).2.2)
        else ([], [], start) := by
  rw [searchLoop]

theorem searchLoop_zero_eight (search : Int → List String) (reachable : String → Bool) :
    searchLoop search reachable 0 8
      = ((search 0).filter (fun u => reachable u) ++ (search 4).filter (fun u => reachable u),
         [0, 4], 8) := by
  rw [searchLoop_unfold, if_pos (by norm_num)]
  norm_num
  rw [searchLoop_unfold, if_pos (by norm_num)]
  norm_num
  rw [searchLoop_unfold, if_neg (by norm_num)]
  simp

theorem searchLoop_filter (search : Int → List String) (reachable : String → Bool)
    (start next_start : Int) :
    (searchLoop search reachable start next_start).1
      = ((searchLoop search reachable start next_start).2.1.flatMap search).filter
          (fun u => reachable u) := by
  induction start, next_start using searchLoop.induct search reachable with
  | case1 start next_start h ih =>
      rw [searchLoop_unfold, if_pos h]
      simp only [List.flatMap_cons, List.filter_append, ih]
  | case2 start next_start h =>
      rw [searchLoop_unfold, if_neg h]
      simp

/-- C4: called with `start = 0`, `pick_image` only issues upstream
requests whose offset keeps the cumulative result count (4 results
per request) within the 56-result maximum, and the next-page control
is disabled exactly when the running offset reaches 56. -/
theorem pick_image_start_zero (search : Int → List String) (reachable : String → Bool)
    (query : String) :
    (∀ s ∈ (pick_image search reachable query 0).requests, s + 4 ≤ 56)
    ∧ ((pick_image search reachable query 0).next_start = none
        ↔ (pick_image search reachable query 0).final_start = 56) := by
  have hreq : (pick_image search reachable query 0).requests = [0, 4] := by
    simp [pick_image, MAX_RESULTS, searchLoop_zero_eight]
  have hnext : (pick_image search reachable query 0).next_start = some 8 := by
    simp [pick_image, MAX_RESULTS, searchLoop_zero_eight]
  have hfin : (pick_image search reachable query 0).final_start = 8 := by
    simp [pick_image, MAX_RESULTS, searchLoop_zero_eight]
  constructor
  · intro s hs
    rw [hreq] at hs
    rcases List.mem_cons.1 hs with rfl | hs
    · norm_num
    · rcases List.mem_cons.1 hs with rfl | hs
      · norm_num
      · simp at hs
  · rw [hnext, hfin]
    constructor
    · intro h; cases h
    · intro h; norm_num at h

/-- Witness for C4: concrete collaborators, `start = 0`. -/
theorem pick_image_start_zero_w :
    (0:Int) + 4 ≤ 56
    ∧ ((pick_image sampleSearch sampleReachable "cats" 0).next_start = none
        ↔ (pick_image sampleSearch sampleReachable "cats" 0).final_start = 56) :=
  ⟨(pick_image_start_zero sampleSearch sampleReachable "cats").1 0
      (by simp [pick_image, MAX_RESULTS, searchLoop_zero_eight]),
   (pick_image_start_zero sampleSearch sampleReachable "cats").2⟩

/-- C8: the gallery consists of exactly the fetched search results
that are reachable, in order; an unreachable URL is skipped while the
remaining results are still processed. -/
theorem pick_image_skips_unreachable (search : Int → List String) (reachable : String → Bool)
    (query : String) (start : Int) :
    ((pick_image search reachable query start).img_urls
       = ((pick_image search reachable query start).requests.flatMap search).filter
           (fun u => reachable u))
    ∧ ∀ u, reachable u = false → u ∉ (pick_image search reachable query start).img_urls := by
  have h1 : (pick_image search reachable query start).img_urls
      = ((pick_image search reachable query start).requests.flatMap search).filter
          (fun u => reachable u) := by
    simpa [pick_image] using searchLoop_filter search reachable start
      (if start + 8 > MAX_RESULTS then MAX_RESULTS else start + 8)
  refine ⟨h1, ?_⟩
  intro u hu hmem
  rw [h1] at hmem
  have := (List.mem_filter.1 hmem).2
  rw [hu] at this
  cases this

/-- Witness for C8: the unreachable URL `"bad"` is not in the
rendered gallery. -/
theorem pick_image_skips_unreachable_w :
    "bad" ∉ (pick_image sampleSearch sampleReachable "cats" 0).img_urls :=
  (pick_image_skips_unreachable sampleSearch sampleReachable "cats" 0).2 "bad" rfl

/-- C10: for any `start ≥ 56`, `pick_image` issues no upstream
requests, renders an empty gallery, and disables the next-page
control. -/
theorem pick_image_past_max (search : Int → List String) (reachable : String → Bool)
    (query : String) (start : Int) (h : 56 ≤ start) :
    (pick_image search reachable query start).requests = []
    ∧ (pick_image search reachable query start).img_urls = []
    ∧ (pick_image search reachable query start).next_start = none := by
  have hcl : (if start + 8 > MAX_RESULTS then MAX_RESULTS else start + 8) = MAX_RESULTS := by
    rw [if_pos]
    simp only [MAX_RESULTS]
    omega
  have hloop : searchLoop search reachable start MAX_RESULTS = ([], [], start) := by
    rw [searchLoop_unfold, if_neg]
    simp only [MAX_RESULTS]
    omega
  refine ⟨?_, ?_, ?_⟩ <;> simp [pick_image, hcl, hloop]

/-- Witness for C10: at `start = 56` nothing is requested and the
next-page control is off. -/
theorem pick_image_past_max_w :
    (pick_image sampleSearch sampleReachable "cats" 56).requests = []
    ∧ (pick_image sampleSearch sampleReachable "cats" 56).img_urls = []
    ∧ (pick_image sampleSearch sampleReachable "cats" 56).next_start = none :=
  pick_image_past_max sampleSearch sampleReachable "cats" 56 (by norm_num)
